import Mathlib

/-!
Verification of the transform-and-aggregate stock pipeline.

The development shallowly embeds the Python sources:

* `load.py` — the two-tier warehouse: the staging table `stg.stock_data`,
  the enterprise table `edw.stock_data` (both with a UNIQUE (symbol, date)
  constraint), the `move_data_to_edw` upsert merge, and
  `load_data_to_postgres`.
* `transform.py` — `transform_data`: schema check, type coercion, symbol
  upper-casing, sort by date, grouped daily-return computation.
* `aggregated.py` — `aggregate_data`: column lower-casing, required-column
  check, `fillna(0)` on the daily return, and the per-symbol summary
  (mean close, total volume, mean return, sample std of returns, trailing
  moving averages, max date).
* `main2.py` — the pipeline driver `main`, modelled as `mainRun`.

Machine floats are modelled by `ℚ`; a pandas `NaN` cell is `Option.none`.
-/

namespace StockPipeline

/-! ## Warehouse model (`load.py`)

A row of `stg.stock_data` or `edw.stock_data`.  Both tables are declared in
`create_schemas_and_tables` with columns (date, open, high, low, close,
volume, symbol) and a `UNIQUE (symbol, date)` constraint.  The SQL `open`
column is rendered `open_` because `open` is a Lean keyword; the surrogate
`RecordID` key is not modelled (the merge never reads or writes it). -/
structure WarehouseRow where
  date : String
  open_ : ℚ
  high : ℚ
  low : ℚ
  close : ℚ
  volume : ℤ
  symbol : String
deriving DecidableEq

/-- The conflict key of the SQL `ON CONFLICT (symbol, date)` clause. -/
def WarehouseRow.key (r : WarehouseRow) : String × String := (r.symbol, r.date)

/-- The `DO UPDATE SET open = EXCLUDED.open, …, volume = EXCLUDED.volume`
action: overwrite the five value columns of `x` with those of the incoming
staging row `r`, keeping `x`'s identity columns. -/
def overwrite (x r : WarehouseRow) : WarehouseRow :=
  { x with open_ := r.open_, high := r.high, low := r.low,
           close := r.close, volume := r.volume }

/-- Insert-or-update of one staging row into a table state: if some row of
`t` carries the same (symbol, date) key, every such row is overwritten with
`r`'s values; otherwise `r` is appended as a new row. -/
def upsert (t : List WarehouseRow) (r : WarehouseRow) : List WarehouseRow :=
  if t.any (fun x => x.key = r.key) then
    t.map (fun x => if x.key = r.key then overwrite x r else x)
  else t ++ [r]

/-- Embedding of `move_data_to_edw` from `load.py`: the single SQL statement
`INSERT INTO edw.stock_data SELECT … FROM stg.stock_data ON CONFLICT
(symbol, date) DO UPDATE SET …` processes each staging row as an
insert-or-update against the enterprise table. -/
def move_data_to_edw (stg edw : List WarehouseRow) : List WarehouseRow :=
  stg.foldl upsert edw

/-- The multiset of (symbol, date) keys of a table state. -/
def keys (t : List WarehouseRow) : List (String × String) :=
  t.map WarehouseRow.key

/-- Error raised by `load_data_to_postgres` when the input file is absent or
has size zero. -/
inductive LoadErr where
  | fileNotFound
deriving DecidableEq

/-- Embedding of `load_data_to_postgres` from `load.py`.  The filesystem is
abstracted as a map from paths to file sizes (`none` = no such file).  The
function raises `FileNotFoundError` when the file is missing or empty;
otherwise its body ends after `conn = None; cursor = None`, so it returns
leaving the staging table untouched. -/
def load_data_to_postgres (fs : String → Option ℕ) (input_file : String)
    (staging : List WarehouseRow) : Except LoadErr (List WarehouseRow) :=
  match fs input_file with
  | none => .error .fileNotFound
  | some 0 => .error .fileNotFound
  | some (_ + 1) => .ok staging

/-! ### Merge lemmas -/

theorem overwrite_key (x r : WarehouseRow) : (overwrite x r).key = x.key := rfl

theorem overwrite_eq_of_key_eq {x r : WarehouseRow} (h : x.key = r.key) :
    overwrite x r = r := by
  cases x; cases r
  simp only [WarehouseRow.key, Prod.mk.injEq] at h
  simp [overwrite, h.1, h.2]

/-- Keys are unchanged by an upsert that hits a conflict. -/
theorem keys_upsert_conflict {t : List WarehouseRow} {r : WarehouseRow}
    (h : t.any (fun x => x.key = r.key) = true) :
    keys (upsert t r) = keys t := by
  simp only [upsert, h, if_true, keys, List.map_map]
  apply List.map_congr_left
  intro x _
  by_cases hk : x.key = r.key <;> simp [hk, overwrite_key]

theorem keys_upsert_fresh {t : List WarehouseRow} {r : WarehouseRow}
    (h : ¬ t.any (fun x => x.key = r.key) = true) :
    keys (upsert t r) = keys t ++ [r.key] := by
  simp only [upsert, h, Bool.false_eq_true, if_false, keys, List.map_append, List.map]

theorem keys_subset_upsert (t : List WarehouseRow) (r : WarehouseRow) :
    ∀ k ∈ keys t, k ∈ keys (upsert t r) := by
  intro k hk
  by_cases h : t.any (fun x => x.key = r.key) = true
  · rwa [keys_upsert_conflict h]
  · rw [keys_upsert_fresh h]; exact List.mem_append_left _ hk

theorem key_mem_upsert (t : List WarehouseRow) (r : WarehouseRow) :
    r.key ∈ keys (upsert t r) := by
  by_cases h : t.any (fun x => x.key = r.key) = true
  · rw [keys_upsert_conflict h]
    rcases List.any_eq_true.mp h with ⟨x, hx, hxe⟩
    simp only [decide_eq_true_eq] at hxe
    exact hxe ▸ List.mem_map_of_mem WarehouseRow.key hx
  · rw [keys_upsert_fresh h]
    exact List.mem_append_right _ (List.mem_singleton.mpr rfl)

/-- After upserting `r`, every row carrying `r`'s key is exactly `r`. -/
theorem upsert_rows_at_key (t : List WarehouseRow) (r : WarehouseRow) :
    ∀ x ∈ upsert t r, x.key = r.key → x = r := by
  intro x hx hk
  by_cases h : t.any (fun y => y.key = r.key) = true
  · simp only [upsert, h, if_true, List.mem_map] at hx
    rcases hx with ⟨y, _, hy⟩
    by_cases hyk : y.key = r.key
    · rw [if_pos hyk] at hy
      exact hy ▸ overwrite_eq_of_key_eq hyk
    · rw [if_neg hyk] at hy
      exact absurd (hy ▸ hk) hyk
  · simp only [upsert, h, Bool.false_eq_true, if_false, List.mem_append,
      List.mem_singleton] at hx
    rcases hx with hx | hx
    · exact absurd (List.any_eq_true.mpr ⟨x, hx, decide_eq_true hk⟩) h
    · exact hx

/-- Rows at a key other than the upserted one are untouched (as a set of
occurrences at that key). -/
theorem upsert_preserves_other_key {t : List WarehouseRow} {r x : WarehouseRow}
    {k : String × String} (hk : r.key ≠ k)
    (hinv : ∀ y ∈ t, y.key = k → y = x) :
    ∀ y ∈ upsert t r, y.key = k → y = x := by
  intro y hy hyk
  by_cases h : t.any (fun z => z.key = r.key) = true
  · simp only [upsert, h, if_true, List.mem_map] at hy
    rcases hy with ⟨z, hz, hzy⟩
    by_cases hzk : z.key = r.key
    · rw [if_pos hzk] at hzy
      have : r.key = k := by rw [← hyk, ← hzy, overwrite_key, hzk]
      exact absurd this hk
    · rw [if_neg hzk] at hzy
      exact hzy ▸ hinv z hz (hzy ▸ hyk)
  · simp only [upsert, h, Bool.false_eq_true, if_false, List.mem_append,
      List.mem_singleton] at hy
    rcases hy with hy | hy
    · exact hinv y hy hyk
    · exact absurd (hy ▸ hyk : r.key = k) hk

/-- Folding a batch whose keys all differ from `k` preserves the rows found
at key `k`. -/
theorem fold_preserves_other_key (batch : List WarehouseRow) :
    ∀ {t : List WarehouseRow} {k : String × String} {x : WarehouseRow},
    (∀ r ∈ batch, r.key ≠ k) → (∀ y ∈ t, y.key = k → y = x) →
    ∀ y ∈ batch.foldl upsert t, y.key = k → y = x := by
  induction batch with
  | nil => intro t k x _ hinv y hy; exact hinv y hy
  | cons a rest ih =>
    intro t k x hks hinv
    simp only [List.foldl_cons]
    exact ih (fun r hr => hks r (List.mem_cons_of_mem a hr))
      (upsert_preserves_other_key (hks a (List.mem_cons_self a rest)) hinv)

theorem fold_key_mem (batch : List WarehouseRow) :
    ∀ {t : List WarehouseRow} {k : String × String}, k ∈ keys t →
    k ∈ keys (batch.foldl upsert t) := by
  induction batch with
  | nil => intro t k hk; exact hk
  | cons a rest ih =>
    intro t k hk
    simp only [List.foldl_cons]
    exact ih (keys_subset_upsert t a k hk)

/-- After the merge of a key-distinct staging batch, every enterprise row
that carries a staging row's key is exactly that staging row. -/
theorem fold_rows_at_key (stg : List WarehouseRow) (h : (keys stg).Nodup) :
    ∀ r ∈ stg, ∀ edw : List WarehouseRow,
    ∀ y ∈ move_data_to_edw stg edw, y.key = r.key → y = r := by
  induction stg with
  | nil => intro r hr; exact absurd hr (List.not_mem_nil r)
  | cons a rest ih =>
    simp only [keys, List.map_cons, List.nodup_cons] at h
    intro r hr edw
    rcases List.mem_cons.mp hr with rfl | hr
    · simp only [move_data_to_edw, List.foldl_cons]
      refine fold_preserves_other_key rest ?_ (upsert_rows_at_key edw r)
      intro s hs hsk
      exact h.1 (hsk ▸ List.mem_map_of_mem WarehouseRow.key hs)
    · simp only [move_data_to_edw, List.foldl_cons]
      exact ih (by simpa [keys] using h.2) r hr (upsert edw a)

theorem fold_key_of_mem (stg : List WarehouseRow) :
    ∀ r ∈ stg, ∀ edw : List WarehouseRow,
    r.key ∈ keys (move_data_to_edw stg edw) := by
  induction stg with
  | nil => intro r hr; exact absurd hr (List.not_mem_nil r)
  | cons a rest ih =>
    intro r hr edw
    rcases List.mem_cons.mp hr with rfl | hr
    · exact fold_key_mem rest (key_mem_upsert edw r)
    · exact ih r hr (upsert edw a)

/-- Re-merging a batch against a table that already holds every batch row at
its key is a no-op. -/
theorem fold_noop (batch : List WarehouseRow) :
    ∀ {t : List WarehouseRow},
    (∀ r ∈ batch, (∀ y ∈ t, y.key = r.key → y = r) ∧ r.key ∈ keys t) →
    batch.foldl upsert t = t := by
  induction batch with
  | nil => intro t _; rfl
  | cons a rest ih =>
    intro t hbatch
    have ha := hbatch a (List.mem_cons_self a rest)
    have hup : upsert t a = t := by
      rcases List.mem_map.mp ha.2 with ⟨x, hxt, hxk⟩
      have hany : t.any (fun x => x.key = a.key) = true :=
        List.any_eq_true.mpr ⟨x, hxt, decide_eq_true hxk⟩
      simp only [upsert, hany, if_true]
      rw [List.map_congr_left, List.map_id]
      intro y hy
      by_cases hyk : y.key = a.key
      · have : y = a := ha.1 y hy hyk
        subst this
        simp [overwrite_eq_of_key_eq hyk, hyk]
      · simp [hyk]
    simp only [List.foldl_cons, hup]
    exact ih (fun r hr => hbatch r (List.mem_cons_of_mem a hr))

theorem nodup_keys_upsert {t : List WarehouseRow} {r : WarehouseRow}
    (h : (keys t).Nodup) : (keys (upsert t r)).Nodup := by
  by_cases hc : t.any (fun x => x.key = r.key) = true
  · rwa [keys_upsert_conflict hc]
  · rw [keys_upsert_fresh hc]
    rw [List.nodup_append]
    refine ⟨h, List.nodup_singleton _, ?_⟩
    intro k hk hk1
    rw [List.mem_singleton] at hk1
    subst hk1
    rcases List.mem_map.mp hk with ⟨x, hxt, hxk⟩
    exact hc (List.any_eq_true.mpr ⟨x, hxt, decide_eq_true hxk⟩)

theorem nodup_keys_fold (batch : List WarehouseRow) :
    ∀ {t : List WarehouseRow}, (keys t).Nodup →
    (keys (batch.foldl upsert t)).Nodup := by
  induction batch with
  | nil => intro t h; exact h
  | cons a rest ih =>
    intro t h
    simp only [List.foldl_cons]
    exact ih (nodup_keys_upsert h)

/-- C1.  Merging the staging table into the enterprise store is idempotent:
for every staging-table state (its (symbol, date) keys are pairwise distinct,
as the staging table's UNIQUE constraint guarantees) and every enterprise
state (likewise key-distinct), running `move_data_to_edw` twice yields the
same enterprise state as running it once, and the merged state never holds
two rows with the same (symbol, date) key. -/
theorem merge_idempotent_and_nodup (stg edw : List WarehouseRow)
    (hstg : (keys stg).Nodup) (hedw : (keys edw).Nodup) :
    move_data_to_edw stg (move_data_to_edw stg edw) = move_data_to_edw stg edw ∧
    (keys (move_data_to_edw stg edw)).Nodup := by
  constructor
  · exact fold_noop stg (fun r hr =>
      ⟨fold_rows_at_key stg hstg r hr edw, fold_key_of_mem stg r hr edw⟩)
  · exact nodup_keys_fold stg hedw

/-- C9.  `load_data_to_postgres` raises `FileNotFoundError` exactly when the
input file is missing or empty, and otherwise returns leaving the staging
table untouched: it performs no database write at all. -/
theorem load_data_to_postgres_spec (fs : String → Option ℕ) (p : String)
    (stg : List WarehouseRow) :
    (load_data_to_postgres fs p stg = .error .fileNotFound ↔
      fs p = none ∨ fs p = some 0) ∧
    (∀ n : ℕ, fs p = some (n + 1) → load_data_to_postgres fs p stg = .ok stg) := by
  unfold load_data_to_postgres
  rcases h : fs p with _ | n
  · simp [h]
  · rcases n with _ | n <;> simp [h]

/-- A two-row staging state with distinct (symbol, date) keys. -/
def stgEx : List WarehouseRow :=
  [⟨"2024-01-02", 100, 110, 90, 110, 5000, "AAPL"⟩,
   ⟨"2024-01-02", 200, 210, 190, 205, 800, "MSFT"⟩]

/-- An enterprise state already holding the (AAPL, 2024-01-02) key with an
older close. -/
def edwEx : List WarehouseRow :=
  [⟨"2024-01-02", 101, 111, 91, 108, 4000, "AAPL"⟩]

/-- Witness for C1 at the concrete states `stgEx` and `edwEx`. -/
theorem merge_idempotent_and_nodup_witness :
    move_data_to_edw stgEx (move_data_to_edw stgEx edwEx) =
      move_data_to_edw stgEx edwEx ∧
    (keys (move_data_to_edw stgEx edwEx)).Nodup :=
  merge_idempotent_and_nodup stgEx edwEx (by decide) (by decide)

/-- Witness for C9: a present non-empty file loads as a no-op, and a missing
file raises. -/
theorem load_data_to_postgres_spec_witness :
    load_data_to_postgres (fun _ => some 1) "transformed.csv" stgEx = .ok stgEx ∧
    load_data_to_postgres (fun _ => none) "transformed.csv" stgEx =
      .error .fileNotFound :=
  ⟨(load_data_to_postgres_spec (fun _ => some 1) "transformed.csv" stgEx).2 0 rfl,
   (load_data_to_postgres_spec (fun _ => none) "transformed.csv" stgEx).1.mpr
     (Or.inl rfl)⟩

/-! ## Normalizer and Return Calculator model (`transform.py`) -/

/-- Embedding of pandas `Series.str.upper()` applied to one cell. -/
def upperStr (s : String) : String := ⟨s.data.map Char.toUpper⟩

/-- Embedding of pandas `Index.str.lower()` applied to one name. -/
def lowerStr (s : String) : String := ⟨s.data.map Char.toLower⟩

/-- One raw input row of `transform_data`.  The numeric cells carry the
outcome of `pd.to_numeric(…, errors="coerce")` (`none` is the `NaN` a failed
coercion leaves) and `date` carries the outcome of parsing the cell with
`pd.to_datetime` (`none` = the parse would raise), with parsed dates mapped
order-preservingly to `ℕ`; the subsequent `strftime("%Y-%m-%d")` rendering
is order-preserving on dates, so sorting the rendered strings agrees with
sorting these numbers. -/
structure RawRow where
  date : Option ℕ
  openPrice : Option ℚ
  high : Option ℚ
  low : Option ℚ
  close : Option ℚ
  volume : Option ℚ
  symbol : String
deriving DecidableEq

/-- A DataFrame as `transform_data` sees it: its column-name list plus its
rows. -/
structure RawFrame where
  cols : List String
  rows : List RawRow
deriving DecidableEq

/-- The `expected_columns` list of `transform.py`, compared against
`df.columns` with plain (case-sensitive) string equality. -/
def expected_columns : List String :=
  ["Date", "OpenPrice", "High", "Low", "ClosePrice", "Volume", "Symbol"]

/-- A transformed row: the normalized row plus the `DailyReturn` column
(`none` is pandas `NaN`). -/
structure TRow extends RawRow where
  dailyReturn : Option ℚ
deriving DecidableEq

/-- The transformed DataFrame. -/
structure TFrame where
  cols : List String
  rows : List TRow
deriving DecidableEq

/-- The empty DataFrame `pd.DataFrame()` that `transform_data` returns on a
failed column check or on an exception. -/
def emptyTFrame : TFrame := ⟨[], []⟩

/-- Sort key of `df.sort_values(by=["Date"])` after the dates were parsed
(every row reaching the sort has `date = some _`). -/
def dateOf (r : RawRow) : ℕ := r.date.getD 0

/-- Stable insertion of a row into a date-sorted list: the new row goes
after every strictly earlier date and before equal dates seen later. -/
def insertByDate (r : RawRow) : List RawRow → List RawRow
  | [] => [r]
  | x :: xs => if dateOf x < dateOf r then x :: insertByDate r xs else r :: x :: xs

/-- Embedding of `df.sort_values(by=["Date"], ascending=True)` as a stable
sort by date.  (pandas' default quicksort may reorder rows of equal date;
no property proved here depends on the order of equal-date rows.) -/
def sortByDate : List RawRow → List RawRow
  | [] => []
  | x :: xs => insertByDate x (sortByDate xs)

/-- Embedding of `df.groupby("Symbol")["ClosePrice"].pct_change()`.  The
state `seen` maps each symbol already passed to its last forward-filled
close (grouped `pct_change` forward-fills `NaN` closes within the group
before dividing, its default `fill_method`).  A row whose symbol was not
seen before — the first row of its group — gets `none` (`NaN`); any later
row gets `filled / previous - 1`. -/
def pctChangeAux : List (String × ℚ) → List RawRow → List TRow
  | _, [] => []
  | seen, r :: rest =>
    let prev : Option ℚ := (seen.find? (fun p => p.1 = r.symbol)).map (fun p => p.2)
    let filled : Option ℚ := r.close.orElse (fun _ => prev)
    let ret : Option ℚ := match prev, filled with
      | some p, some c => some (c / p - 1)
      | _, _ => none
    let seen2 : List (String × ℚ) := match filled with
      | some c => (r.symbol, c) :: seen
      | none => seen
    ⟨r, ret⟩ :: pctChangeAux seen2 rest

/-- The Return Calculator: the grouped percentage change over a row
sequence, started with no symbol seen. -/
def computeReturns (l : List RawRow) : List TRow := pctChangeAux [] l

/-- Embedding of `transform_data` from `transform.py`: the case-sensitive
`expected_columns` check (failure returns an empty frame); then
`pd.to_datetime(df["Date"])`, which raises on any unparsable date — the
`except` clause turns that into an empty frame; then symbol upper-casing,
the sort by date, and the grouped daily return, with the `DailyReturn`
column appended. -/
def transform_data (f : RawFrame) : TFrame :=
  if expected_columns.all (fun c => c ∈ f.cols) then
    if f.rows.all (fun r => r.date.isSome) then
      let upped := f.rows.map (fun r => { r with symbol := upperStr r.symbol })
      ⟨f.cols ++ ["DailyReturn"], computeReturns (sortByDate upped)⟩
    else emptyTFrame
  else emptyTFrame

/-! ### Schema check (claims C3, C4, C7) -/

/-- The required-field set claim C3 ascribes to the Normalizer, written from
the spec's words: lower-case canonical names, checked case-insensitively.
This definition exists only to be compared with the code's check. -/
def requiredFieldsSpec : List String :=
  ["date", "symbol", "open", "high", "low", "close", "volume"]

/-- Claim C3's check as the spec words it: every required field is present
among the columns up to letter case. -/
def specSchemaOk (f : RawFrame) : Bool :=
  requiredFieldsSpec.all (fun c => f.cols.any (fun c2 => lowerStr c2 = c))

/-- C3 (amended).  The Normalizer checks for the exact, case-sensitive
column names `Date, OpenPrice, High, Low, ClosePrice, Volume, Symbol`; when
any is absent it returns the empty frame (the run's fatal failure signal) —
it raises no `SchemaError` and reports no missing-field list. -/
theorem transform_data_schema_check (f : RawFrame)
    (h : ¬ (expected_columns.all (fun c => c ∈ f.cols)) = true) :
    transform_data f = emptyTFrame := by
  unfold transform_data
  rw [if_neg h]

/-- Witness for the amended C3: a frame lacking `ClosePrice` is rejected. -/
theorem transform_data_schema_check_witness :
    transform_data ⟨["Date"], []⟩ = emptyTFrame :=
  transform_data_schema_check ⟨["Date"], []⟩ (by decide)

/-- A row whose fields are all present and parsable. -/
def schemaRowEx : RawRow := ⟨some 0, some 1, some 1, some 1, some 1, some 1, "AAPL"⟩

/-- A frame carrying exactly the fields claim C3 calls required, as
lower-case column names. -/
def lowercaseColsFrame : RawFrame :=
  ⟨["date", "symbol", "open", "high", "low", "close", "volume"], [schemaRowEx]⟩

/-- Counterexample to C3 as stated: this non-empty frame passes the spec's
case-insensitive required-field check, yet the code rejects it (empty
output), because the code demands the exact names `Date, OpenPrice, …`
case-sensitively. -/
theorem transform_data_not_case_insensitive :
    specSchemaOk lowercaseColsFrame = true ∧
    lowercaseColsFrame.rows ≠ [] ∧
    transform_data lowercaseColsFrame = emptyTFrame := by
  refine ⟨by decide, by decide, by decide⟩

/-- C4 (amended).  One unparsable date aborts the whole batch:
`pd.to_datetime` raises, the handler returns the empty frame, and no row —
parsable or not — survives; no dropped-row count is reported. -/
theorem transform_data_unparsable_date_aborts (f : RawFrame)
    (hcols : (expected_columns.all (fun c => c ∈ f.cols)) = true)
    (hbad : ∃ r ∈ f.rows, r.date = none) :
    transform_data f = emptyTFrame := by
  unfold transform_data
  rw [if_pos hcols, if_neg]
  rcases hbad with ⟨r, hr, hd⟩
  simp only [List.all_eq_true, not_forall]
  exact ⟨r, hr, by simp [hd]⟩

/-- The row with the unparsable date. -/
def badDateRow : RawRow := ⟨none, some 1, some 1, some 1, some 1, some 1, "AAPL"⟩

/-- A schema-complete frame holding one unparsable-date row and one fully
parsable row. -/
def badDateFrame : RawFrame :=
  ⟨expected_columns,
   [badDateRow, ⟨some 1, some 2, some 2, some 2, some 2, some 2, "AAPL"⟩]⟩

/-- Counterexample to C4 as stated: the batch has a parsable row, yet the
output holds no rows at all — the remaining parsable rows are not
returned. -/
theorem transform_data_drops_whole_batch :
    badDateFrame.rows.any (fun r => r.date.isSome) = true ∧
    (transform_data badDateFrame).rows = [] := by
  refine ⟨by decide, by decide⟩

/-- Witness for the amended C4 at the concrete frame `badDateFrame`. -/
theorem transform_data_unparsable_date_aborts_witness :
    transform_data badDateFrame = emptyTFrame :=
  transform_data_unparsable_date_aborts badDateFrame (by decide)
    ⟨badDateRow, by decide, rfl⟩

/-! ### Row counting (claim C7) -/

theorem pctChangeAux_length (l : List RawRow) :
    ∀ seen : List (String × ℚ), (pctChangeAux seen l).length = l.length := by
  induction l with
  | nil => intro seen; rfl
  | cons r rest ih => intro seen; simp [pctChangeAux, ih]

theorem insertByDate_length (r : RawRow) (l : List RawRow) :
    (insertByDate r l).length = l.length + 1 := by
  induction l with
  | nil => rfl
  | cons x xs ih =>
    by_cases h : dateOf x < dateOf r <;> simp [insertByDate, h, ih]

theorem sortByDate_length (l : List RawRow) :
    (sortByDate l).length = l.length := by
  induction l with
  | nil => rfl
  | cons x xs ih => simp [sortByDate, insertByDate_length, ih]

/-- C7 (amended).  When the Normalizer succeeds (schema complete, all dates
parsable) it keeps every input row: the output has exactly as many rows as
the input, so duplicate (symbol, date) rows are not collapsed at all. -/
theorem transform_data_preserves_row_count (f : RawFrame)
    (hcols : (expected_columns.all (fun c => c ∈ f.cols)) = true)
    (hdates : (f.rows.all (fun r => r.date.isSome)) = true) :
    (transform_data f).rows.length = f.rows.length := by
  unfold transform_data
  rw [if_pos hcols, if_pos hdates]
  simp [computeReturns, pctChangeAux_length, sortByDate_length]

/-- A schema-complete frame whose two rows share the (symbol, date) key
(AAPL, 5) but differ in every price field. -/
def dupKeyFrame : RawFrame :=
  ⟨expected_columns,
   [⟨some 5, some 1, some 1, some 1, some 10, some 1, "AAPL"⟩,
    ⟨some 5, some 2, some 2, some 2, some 20, some 2, "AAPL"⟩]⟩

/-- Counterexample to C7 as stated: both rows with the duplicated
(symbol, date) key survive normalization — nothing is collapsed, so the
output does not contain at most one record per (symbol, date). -/
theorem transform_data_keeps_duplicates :
    ((transform_data dupKeyFrame).rows.countP
      (fun r => r.symbol = "AAPL" ∧ r.date = some 5)) = 2 := by
  decide

/-- Witness for the amended C7 at the concrete frame `dupKeyFrame`. -/
theorem transform_data_preserves_row_count_witness :
    (transform_data dupKeyFrame).rows.length = dupKeyFrame.rows.length :=
  transform_data_preserves_row_count dupKeyFrame (by decide) (by decide)

/-! ### Per-symbol returns (claim C5) -/

/-- Boolean check that a list of dates is ascending. -/
def dvascending : List ℕ → Bool
  | [] => true
  | [_] => true
  | a :: b :: rest => a ≤ b && dvascending (b :: rest)

/-- Returns of the rows following the group's first one, as the claim
states them: each is the percentage change of close from the immediately
preceding row of the group, whose close is `p`. -/
def pctFrom : ℚ → List ℚ → List (Option ℚ)
  | _, [] => []
  | p, c :: cs => some (c / p - 1) :: pctFrom c cs

/-- The claim's description of one symbol's whole return column: the first
chronological row is missing, every later row numeric. -/
def pctSpec : List ℚ → List (Option ℚ)
  | [] => []
  | c :: cs => none :: pctFrom c cs

/-- Return column of a group that may already have a previous close. -/
def pctCont : Option ℚ → List ℚ → List (Option ℚ)
  | none, cs => pctSpec cs
  | some p, cs => pctFrom p cs

/-- The last forward-filled close recorded for symbol `s`. -/
def lastSeen (s : String) (seen : List (String × ℚ)) : Option ℚ :=
  (seen.find? (fun p => p.1 = s)).map (fun p => p.2)

theorem lastSeen_cons_self (s : String) (c : ℚ) (seen : List (String × ℚ)) :
    lastSeen s ((s, c) :: seen) = some c := by
  simp [lastSeen, List.find?]

theorem lastSeen_cons_ne {s t : String} (h : t ≠ s) (c : ℚ)
    (seen : List (String × ℚ)) :
    lastSeen s ((t, c) :: seen) = lastSeen s seen := by
  simp [lastSeen, List.find?, h]

/-- One step of the grouped percentage change on a row whose close parsed. -/
theorem pctChangeAux_cons_some (seen : List (String × ℚ)) (r : RawRow)
    (rest : List RawRow) (c : ℚ) (hc : r.close = some c) :
    pctChangeAux seen (r :: rest) =
      ⟨r, (lastSeen r.symbol seen).map (fun p => c / p - 1)⟩ ::
        pctChangeAux ((r.symbol, c) :: seen) rest := by
  simp only [pctChangeAux, hc, lastSeen]
  cases hfind : seen.find? (fun p => p.1 = r.symbol) <;>
    simp [Option.orElse, hfind]

/-- One step of the grouped percentage change on a `NaN` close: the value is
forward-filled from the previous close when one exists (giving return `0` as
`p / p - 1`), and stays `NaN` on the group's first row. -/
theorem pctChangeAux_cons_none (seen : List (String × ℚ)) (r : RawRow)
    (rest : List RawRow) (hc : r.close = none) :
    pctChangeAux seen (r :: rest) =
      match lastSeen r.symbol seen with
      | none => ⟨r, none⟩ :: pctChangeAux seen rest
      | some p => ⟨r, some (p / p - 1)⟩ :: pctChangeAux ((r.symbol, p) :: seen) rest := by
  simp only [pctChangeAux, hc, lastSeen]
  cases hfind : seen.find? (fun p => p.1 = r.symbol) <;>
    simp [Option.orElse, hfind]

theorem pctChangeAux_filter (s : String) :
    ∀ (l : List RawRow) (seen : List (String × ℚ)),
    (∀ r ∈ l, r.symbol = s → ∃ c : ℚ, r.close = some c) →
    ((pctChangeAux seen l).filter (fun r => r.symbol = s)).map
        (fun r => r.dailyReturn) =
      pctCont (lastSeen s seen)
        ((l.filter (fun r => r.symbol = s)).map (fun r => r.close.getD 0)) := by
  intro l
  induction l with
  | nil =>
    intro seen _
    rcases h : lastSeen s seen with _ | p <;>
      simp [pctChangeAux, h, pctCont, pctSpec, pctFrom]
  | cons r rest ih =>
    intro seen hclose
    have hrest : ∀ x ∈ rest, x.symbol = s → ∃ c : ℚ, x.close = some c :=
      fun x hx => hclose x (List.mem_cons_of_mem r hx)
    by_cases hs : r.symbol = s
    · subst hs
      rcases hclose r (List.mem_cons_self r rest) rfl with ⟨c, hc⟩
      rw [pctChangeAux_cons_some seen r rest c hc]
      have hihs := ih ((r.symbol, c) :: seen) hrest
      rw [lastSeen_cons_self r.symbol c seen] at hihs
      rcases hls : lastSeen r.symbol seen with _ | p <;>
        simp [List.filter_cons, hc, pctCont, pctSpec, pctFrom, hihs]
    · rcases hcl : r.close with _ | c
      · rw [pctChangeAux_cons_none seen r rest hcl]
        rcases hls : lastSeen r.symbol seen with _ | p
        · simpa [List.filter_cons, hs] using ih seen hrest
        · have hihs := ih ((r.symbol, p) :: seen) hrest
          rw [lastSeen_cons_ne hs p seen] at hihs
          simpa [List.filter_cons, hs] using hihs
      · rw [pctChangeAux_cons_some seen r rest c hcl]
        have hihs := ih ((r.symbol, c) :: seen) hrest
        rw [lastSeen_cons_ne hs c seen] at hihs
        simpa [List.filter_cons, hs] using hihs

/-- C5 (amended).  For input whose per-symbol subsequences are
date-ascending and whose closes all parsed to positive numbers, the Return
Calculator gives exactly the first row of each symbol no value and every
later row of that symbol the percentage change of close from the
immediately preceding row of that symbol's own subsequence.  (The
restriction to parsed closes is forced: see the counterexample with a `NaN`
close.) -/
theorem computeReturns_per_symbol (l : List RawRow) (s : String)
    (_hsorted : dvascending ((l.filter (fun r => r.symbol = s)).map dateOf) = true)
    (hclose : ∀ r ∈ l, r.symbol = s → ∃ c : ℚ, 0 < c ∧ r.close = some c) :
    ((computeReturns l).filter (fun r => r.symbol = s)).map
        (fun r => r.dailyReturn) =
      pctSpec ((l.filter (fun r => r.symbol = s)).map (fun r => r.close.getD 0)) := by
  have h := pctChangeAux_filter s l []
    (fun r hr hs => (hclose r hr hs).elim (fun c hc => ⟨c, hc.2⟩))
  simpa [computeReturns, pctCont] using h

/-- A date-sorted AAPL pair whose first close failed numeric coercion. -/
def nanFirstCloseRows : List RawRow :=
  [⟨some 1, some 100, some 100, some 100, none, some 1, "AAPL"⟩,
   ⟨some 2, some 110, some 110, some 110, some 110, some 1, "AAPL"⟩]

/-- Counterexample to C5 as stated: the rows are date-ascending and the
second AAPL row is not the symbol's first chronological row, yet its daily
return is missing rather than numeric — the preceding close is a failed
coercion (`NaN`), so the grouped `pct_change` has nothing to divide by. -/
theorem second_row_return_missing_on_nan_close :
    dvascending ((nanFirstCloseRows.filter (fun r => r.symbol = "AAPL")).map
      dateOf) = true ∧
    ((computeReturns nanFirstCloseRows).map (fun r => r.dailyReturn)) =
      [none, none] := by
  refine ⟨by decide, by decide⟩

/-- Two date-ascending AAPL rows with closes 100 and 110. -/
def returnRowsEx : List RawRow :=
  [⟨some 1, some 100, some 101, some 99, some 100, some 1000, "AAPL"⟩,
   ⟨some 2, some 110, some 111, some 109, some 110, some 900, "AAPL"⟩]

/-- Witness for C5 at `returnRowsEx`: the AAPL column is
`[missing, 110/100 - 1]`. -/
theorem computeReturns_per_symbol_witness :
    ((computeReturns returnRowsEx).filter (fun r => r.symbol = "AAPL")).map
        (fun r => r.dailyReturn) =
      pctSpec ((returnRowsEx.filter (fun r => r.symbol = "AAPL")).map
        (fun r => r.close.getD 0)) :=
  computeReturns_per_symbol returnRowsEx "AAPL" (by decide)
    (by
      intro r hr _
      simp only [returnRowsEx, List.mem_cons, List.not_mem_nil, or_false] at hr
      rcases hr with rfl | rfl
      · exact ⟨100, by norm_num, rfl⟩
      · exact ⟨110, by norm_num, rfl⟩)

/-! ## Aggregator model (`aggregated.py`) -/

/-- One row of the transformed data as `aggregate_data` reads it, fields
named by the lower-cased column names the function uses.  `none` cells are
pandas `NaN` (a failed numeric coercion upstream); `date` is the parsed
date, order-isomorphic to the ISO date strings of the file. -/
structure ARow where
  date : ℕ
  closeprice : Option ℚ
  volume : Option ℚ
  dailyreturn : Option ℚ
  symbol : String
deriving DecidableEq

/-- The aggregator's input DataFrame: column names plus rows. -/
structure AggFrame where
  cols : List String
  rows : List ARow
deriving DecidableEq

/-- The `required_columns` set of `aggregated.py`, checked after the column
names are lower-cased. -/
def required_columns : List String :=
  ["date", "closeprice", "volume", "dailyreturn", "symbol"]

/-- pandas `mean`: the NaN-skipping arithmetic mean; `NaN` (here `none`)
when no numeric value exists. -/
def meanQ (l : List ℚ) : Option ℚ :=
  if l.isEmpty then none else some (l.sum / l.length)

/-- Square of pandas `std` (`ddof=1`): the sample variance over the numeric
values, `NaN` (here `none`) when fewer than two are present.  The code's
`volatilityindex` is the square root of this value and is `NaN` exactly
when this is `none`; the variance is kept because the square root of a
rational is in general irrational. -/
def sampleVar (l : List ℚ) : Option ℚ :=
  if 2 ≤ l.length then
    some ((l.map (fun x => (x - l.sum / l.length) ^ 2)).sum / ((l.length : ℚ) - 1))
  else none

/-- The last `n` elements of a list (the trailing window of
`rolling(window=n)` evaluated at `iloc[-1]`). -/
def lastN {α : Type} (n : ℕ) (l : List α) : List α := l.drop (l.length - n)

/-- Embedding of `group['closeprice'].rolling(window=n).mean().iloc[-1] if
len(group) >= n else None`: guarded by the row count, and `NaN` whenever the
trailing window holds a `NaN` close, because `rolling`'s default
`min_periods` equals the window size and counts numeric values only. -/
def movingAvgLast (n : ℕ) (g : List ARow) : Option ℚ :=
  if n ≤ g.length then
    if (lastN n g).all (fun r => r.closeprice.isSome) then
      some (((lastN n g).filterMap (fun r => r.closeprice)).sum / (n : ℚ))
    else none
  else none

/-- One output row of `aggregate_data`: the merged per-symbol summary.
`volatilityVar` carries the square of the code's `volatilityindex`; see
`sampleVar`. -/
structure SymbolSummary where
  symbol : String
  averagedailyprice : Option ℚ
  totalvolume : ℚ
  dailyreturn : Option ℚ
  volatilityVar : Option ℚ
  movingavg5day : Option ℚ
  movingavg10day : Option ℚ
  maxdate : Option ℕ
deriving DecidableEq

/-- The summary of one symbol's group: the four sub-aggregations of
`aggregate_data` (performance summary, volatility, moving averages, max
date) are computed from the same `groupby('symbol')` groups, so their
left-joins on `symbol` pair exactly these values into one row. -/
def summarizeSymbol (rows : List ARow) (s : String) : SymbolSummary :=
  let g := rows.filter (fun r => r.symbol = s)
  { symbol := s
    averagedailyprice := meanQ (g.filterMap (fun r => r.closeprice))
    totalvolume := (g.filterMap (fun r => r.volume)).sum
    dailyreturn := meanQ (g.filterMap (fun r => r.dailyreturn))
    volatilityVar := sampleVar (g.filterMap (fun r => r.dailyreturn))
    movingavg5day := movingAvgLast 5 g
    movingavg10day := movingAvgLast 10 g
    maxdate := (g.map (fun r => r.date)).max? }

/-- The in-place `transformed_data['dailyreturn'].fillna(0)`. -/
def fillRow (r : ARow) : ARow := { r with dailyreturn := some (r.dailyreturn.getD 0) }

/-- The distinct symbols of the frame, one group key per distinct symbol.
(pandas sorts group keys; no claim depends on the order of the summary
rows, so a structurally recursive de-duplication is used.) -/
def dedupSyms : List String → List String
  | [] => []
  | s :: rest => if s ∈ rest then dedupSyms rest else s :: dedupSyms rest

/-- Embedding of `aggregate_data` from `aggregated.py`.  The function
mutates its argument in place — `transformed_data.columns = ….str.lower()`
and the `fillna(0)` column assignment — so it is modelled as returning the
mutated input frame next to the summary list.  Lower-casing happens before
the required-column check; the fill happens after it, so a failed check
(the raised `ValueError`, caught to return an empty result) leaves the rows
unfilled. -/
def aggregate_data (f : AggFrame) : AggFrame × List SymbolSummary :=
  let f1 : AggFrame := ⟨f.cols.map lowerStr, f.rows⟩
  if required_columns.all (fun c => c ∈ f1.cols) then
    let f2 : AggFrame := ⟨f1.cols, f1.rows.map fillRow⟩
    (f2, (dedupSyms (f2.rows.map (fun r => r.symbol))).map (summarizeSymbol f2.rows))
  else (f1, [])

/-- The group a summary row was computed from, read off the mutated frame. -/
def groupOf (f : AggFrame) (s : String) : List ARow :=
  (aggregate_data f).1.rows.filter (fun r => r.symbol = s)

theorem length_filterMap_of_isSome {α β : Type} (g : α → Option β)
    (l : List α) (h : ∀ x ∈ l, (g x).isSome = true) :
    (l.filterMap g).length = l.length := by
  induction l with
  | nil => rfl
  | cons a rest ih =>
    rcases ho : g a with _ | b
    · exact absurd (ho ▸ h a (List.mem_cons_self a rest)) (by simp)
    · simp [List.filterMap_cons, ho,
        ih (fun x hx => h x (List.mem_cons_of_mem a hx))]

theorem sampleVar_isSome (l : List ℚ) :
    (sampleVar l).isSome = true ↔ 2 ≤ l.length := by
  unfold sampleVar
  by_cases h : 2 ≤ l.length <;> simp [h]

theorem aggregate_data_of_check {f : AggFrame}
    (h : required_columns.all (fun c => c ∈ f.cols.map lowerStr) = true) :
    aggregate_data f = (⟨f.cols.map lowerStr, f.rows.map fillRow⟩,
      (dedupSyms ((f.rows.map fillRow).map (fun r => r.symbol))).map
        (summarizeSymbol (f.rows.map fillRow))) := by
  unfold aggregate_data
  dsimp only
  rw [if_pos h]

theorem aggregate_data_of_fail {f : AggFrame}
    (h : ¬ required_columns.all (fun c => c ∈ f.cols.map lowerStr) = true) :
    aggregate_data f = (⟨f.cols.map lowerStr, f.rows⟩, []) := by
  unfold aggregate_data
  dsimp only
  rw [if_neg h]

/-- C10 (amended).  `aggregate_data` mutates the caller's frame: its column
names are always lower-cased; its missing dailyreturn cells are replaced by
0 exactly when all required columns are present, because the lower-casing
precedes the required-column check while the fill follows it — a call that
fails the check lower-cases the columns but leaves every row untouched. -/
theorem aggregate_mutates_input (f : AggFrame) :
    ((aggregate_data f).1.cols = f.cols.map lowerStr) ∧
    (required_columns.all (fun c => c ∈ f.cols.map lowerStr) = true →
      (aggregate_data f).1.rows = f.rows.map fillRow) ∧
    (¬ required_columns.all (fun c => c ∈ f.cols.map lowerStr) = true →
      (aggregate_data f).1.rows = f.rows) := by
  by_cases h : required_columns.all (fun c => c ∈ f.cols.map lowerStr) = true
  · rw [aggregate_data_of_check h]
    exact ⟨rfl, fun _ => rfl, fun hn => absurd h hn⟩
  · rw [aggregate_data_of_fail h]
    exact ⟨rfl, fun hc => absurd hc h, fun _ => rfl⟩

/-- C2 (amended).  Missing returns are zero-filled before the standard
deviation is taken, so every summary's volatility is the sample standard
deviation (the square root of this sample variance) of the zero-filled
return column, and it is defined exactly when the symbol has at least two
rows — not when it has at least two numeric raw returns. -/
theorem volatility_after_fill (f : AggFrame) (t : SymbolSummary)
    (ht : t ∈ (aggregate_data f).2) :
    t.volatilityVar =
      sampleVar ((groupOf f t.symbol).filterMap (fun r => r.dailyreturn)) ∧
    (t.volatilityVar.isSome = true ↔ 2 ≤ (groupOf f t.symbol).length) := by
  by_cases h : required_columns.all (fun c => c ∈ f.cols.map lowerStr) = true
  · rw [aggregate_data_of_check h] at ht
    rcases List.mem_map.mp ht with ⟨s, hsmem, rfl⟩
    have hsym : (summarizeSymbol (f.rows.map fillRow) s).symbol = s := rfl
    rw [hsym]
    have hg : groupOf f s = (f.rows.map fillRow).filter (fun r => r.symbol = s) := by
      unfold groupOf
      rw [aggregate_data_of_check h]
    rw [hg]
    refine ⟨rfl, ?_⟩
    have hlen : (((f.rows.map fillRow).filter (fun r => r.symbol = s)).filterMap
        (fun r => r.dailyreturn)).length =
        ((f.rows.map fillRow).filter (fun r => r.symbol = s)).length := by
      apply length_filterMap_of_isSome
      intro x hx
      rcases List.mem_filter.mp hx with ⟨hx1, _⟩
      rcases List.mem_map.mp hx1 with ⟨y, _, rfl⟩
      rfl
    rw [show (summarizeSymbol (f.rows.map fillRow) s).volatilityVar =
      sampleVar (((f.rows.map fillRow).filter (fun r => r.symbol = s)).filterMap
        (fun r => r.dailyreturn)) from rfl]
    rw [sampleVar_isSome, hlen]
  · rw [aggregate_data_of_fail h] at ht
    exact absurd ht (List.not_mem_nil t)

theorem movingAvgLast_eq (n : ℕ) (g : List ARow) :
    movingAvgLast n g =
      if n ≤ g.length ∧ (∀ r ∈ lastN n g, r.closeprice.isSome = true) then
        some (((lastN n g).filterMap (fun r => r.closeprice)).sum / (n : ℚ))
      else none := by
  unfold movingAvgLast
  by_cases h1 : n ≤ g.length
  · by_cases h2 : ∀ r ∈ lastN n g, r.closeprice.isSome = true
    · rw [if_pos h1, if_pos (List.all_eq_true.mpr h2), if_pos ⟨h1, h2⟩]
    · rw [if_pos h1, if_neg (fun hc => h2 (List.all_eq_true.mp hc)),
        if_neg (fun hc => h2 hc.2)]
  · rw [if_neg h1, if_neg (fun hc => h1 hc.1)]

/-- C6 (amended).  A trailing moving average is present exactly when the
symbol has at least 5 (respectively 10) rows and the closes of the last 5
(respectively 10) rows are all numeric — a `NaN` close inside the trailing
window makes the average undefined despite enough observations; when
present it is the arithmetic mean of exactly those trailing closes. -/
theorem movingavg_characterization (f : AggFrame) (t : SymbolSummary)
    (ht : t ∈ (aggregate_data f).2) :
    (t.movingavg5day =
      if 5 ≤ (groupOf f t.symbol).length ∧
          (∀ r ∈ lastN 5 (groupOf f t.symbol), r.closeprice.isSome = true) then
        some (((lastN 5 (groupOf f t.symbol)).filterMap
          (fun r => r.closeprice)).sum / (5 : ℚ))
      else none) ∧
    (t.movingavg10day =
      if 10 ≤ (groupOf f t.symbol).length ∧
          (∀ r ∈ lastN 10 (groupOf f t.symbol), r.closeprice.isSome = true) then
        some (((lastN 10 (groupOf f t.symbol)).filterMap
          (fun r => r.closeprice)).sum / (10 : ℚ))
      else none) := by
  by_cases h : required_columns.all (fun c => c ∈ f.cols.map lowerStr) = true
  · rw [aggregate_data_of_check h] at ht
    rcases List.mem_map.mp ht with ⟨s, hsmem, rfl⟩
    have hsym : (summarizeSymbol (f.rows.map fillRow) s).symbol = s := rfl
    rw [hsym]
    have hg : groupOf f s = (f.rows.map fillRow).filter (fun r => r.symbol = s) := by
      unfold groupOf
      rw [aggregate_data_of_check h]
    rw [hg]
    constructor
    · rw [show (summarizeSymbol (f.rows.map fillRow) s).movingavg5day =
        movingAvgLast 5 ((f.rows.map fillRow).filter (fun r => r.symbol = s))
        from rfl]
      rw [movingAvgLast_eq]
      simp [Nat.cast_ofNat]
    · rw [show (summarizeSymbol (f.rows.map fillRow) s).movingavg10day =
        movingAvgLast 10 ((f.rows.map fillRow).filter (fun r => r.symbol = s))
        from rfl]
      rw [movingAvgLast_eq]
      simp [Nat.cast_ofNat]
  · rw [aggregate_data_of_fail h] at ht
    exact absurd ht (List.not_mem_nil t)

/-- The spec's scenario input: two AAPL rows, closes 100 and 110, returns
`[missing, 1/10]`. -/
def scenarioFrame : AggFrame :=
  ⟨["date", "closeprice", "volume", "dailyreturn", "symbol"],
   [⟨1, some 100, some 1000, none, "AAPL"⟩,
    ⟨2, some 110, some 900, some (1/10), "AAPL"⟩]⟩

/-- Counterexample to C2 as stated: on the scenario input, which has only
one numeric raw return, the volatility is nonetheless defined, because
`fillna(0)` runs before `std`, which then sees the two observations
`[0, 1/10]`. -/
theorem volatility_defined_on_scenario :
    ((aggregate_data scenarioFrame).2.map
      (fun t => (t.symbol, t.volatilityVar.isSome))) = [("AAPL", true)] := by
  decide

/-- The single summary row the aggregator computes on the scenario input. -/
def scenarioSummary : SymbolSummary :=
  summarizeSymbol (scenarioFrame.rows.map fillRow) "AAPL"

/-- Witness for the amended C2 at the scenario input. -/
theorem volatility_after_fill_witness :
    scenarioSummary.volatilityVar =
      sampleVar ((groupOf scenarioFrame scenarioSummary.symbol).filterMap
        (fun r => r.dailyreturn)) ∧
    (scenarioSummary.volatilityVar.isSome = true ↔
      2 ≤ (groupOf scenarioFrame scenarioSummary.symbol).length) :=
  volatility_after_fill scenarioFrame scenarioSummary (by
    have h2 : (aggregate_data scenarioFrame).2 = [scenarioSummary] := rfl
    rw [h2]
    exact List.mem_singleton.mpr rfl)

/-- Six AAPL rows whose sixth close failed numeric coercion. -/
def missingCloseFrame : AggFrame :=
  ⟨["date", "closeprice", "volume", "dailyreturn", "symbol"],
   [⟨1, some 1, some 1, some 0, "AAPL"⟩, ⟨2, some 2, some 1, some 0, "AAPL"⟩,
    ⟨3, some 3, some 1, some 0, "AAPL"⟩, ⟨4, some 4, some 1, some 0, "AAPL"⟩,
    ⟨5, some 5, some 1, some 0, "AAPL"⟩, ⟨6, none, some 1, some 0, "AAPL"⟩]⟩

/-- Counterexample to C6 as stated: AAPL has six rows and five numeric
closes — at least 5 observations on either reading — yet movingAvg5 is
undefined, because the five-row trailing window contains the NaN close. -/
theorem movingavg_undefined_despite_enough_rows :
    5 ≤ missingCloseFrame.rows.length ∧
    5 ≤ (missingCloseFrame.rows.filterMap (fun r => r.closeprice)).length ∧
    ((aggregate_data missingCloseFrame).2.map
      (fun t => (t.symbol, t.movingavg5day))) = [("AAPL", none)] := by
  refine ⟨by decide, by decide, by decide⟩

/-- Five AAPL rows with numeric closes 1–5. -/
def fiveCloseFrame : AggFrame :=
  ⟨["date", "closeprice", "volume", "dailyreturn", "symbol"],
   [⟨1, some 1, some 1, some 0, "AAPL"⟩, ⟨2, some 2, some 1, some 0, "AAPL"⟩,
    ⟨3, some 3, some 1, some 0, "AAPL"⟩, ⟨4, some 4, some 1, some 0, "AAPL"⟩,
    ⟨5, some 5, some 1, some 0, "AAPL"⟩]⟩

/-- The single summary row the aggregator computes on `fiveCloseFrame`. -/
def fiveCloseSummary : SymbolSummary :=
  summarizeSymbol (fiveCloseFrame.rows.map fillRow) "AAPL"

/-- Witness for the amended C6 at `fiveCloseFrame`. -/
theorem movingavg_characterization_witness :
    (fiveCloseSummary.movingavg5day =
      if 5 ≤ (groupOf fiveCloseFrame fiveCloseSummary.symbol).length ∧
          (∀ r ∈ lastN 5 (groupOf fiveCloseFrame fiveCloseSummary.symbol),
            r.closeprice.isSome = true) then
        some (((lastN 5 (groupOf fiveCloseFrame fiveCloseSummary.symbol)).filterMap
          (fun r => r.closeprice)).sum / (5 : ℚ))
      else none) ∧
    (fiveCloseSummary.movingavg10day =
      if 10 ≤ (groupOf fiveCloseFrame fiveCloseSummary.symbol).length ∧
          (∀ r ∈ lastN 10 (groupOf fiveCloseFrame fiveCloseSummary.symbol),
            r.closeprice.isSome = true) then
        some (((lastN 10 (groupOf fiveCloseFrame fiveCloseSummary.symbol)).filterMap
          (fun r => r.closeprice)).sum / (10 : ℚ))
      else none) :=
  movingavg_characterization fiveCloseFrame fiveCloseSummary (by
    have h2 : (aggregate_data fiveCloseFrame).2 = [fiveCloseSummary] := rfl
    rw [h2]
    exact List.mem_singleton.mpr rfl)

/-- A frame that lacks the `volume` column but has a `dailyreturn` column
with a missing value in its only row. -/
def noVolumeFrame : AggFrame :=
  ⟨["date", "closeprice", "dailyreturn", "symbol"],
   [⟨1, some 100, some 1, none, "AAPL"⟩]⟩

/-- Counterexample to C10 as stated: after this call the `dailyreturn`
column exists in the caller's frame and its missing value was NOT replaced
by 0 — the required-column check raised before the fill ran. -/
theorem fill_skipped_without_required_columns :
    "dailyreturn" ∈ noVolumeFrame.cols ∧
    ((aggregate_data noVolumeFrame).1.rows.map (fun r => r.dailyreturn)) = [none] := by
  refine ⟨by decide, by decide⟩

/-- Witness for the amended C10 at `noVolumeFrame` (check fails: columns
lower-cased, rows untouched). -/
theorem aggregate_mutates_input_witness :
    (aggregate_data noVolumeFrame).1.cols = noVolumeFrame.cols.map lowerStr ∧
    (aggregate_data noVolumeFrame).1.rows = noVolumeFrame.rows :=
  ⟨(aggregate_mutates_input noVolumeFrame).1,
   (aggregate_mutates_input noVolumeFrame).2.2 (by decide)⟩

/-! ## Pipeline driver model (`main2.py`) -/

/-- The aggregator's view of a transformed frame (the driver passes
`transformed_data` straight to `aggregate_data`; in that frame every date
parsed, so the parsed value is read off directly). -/
def toAggFrame (t : TFrame) : AggFrame :=
  ⟨t.cols, t.rows.map (fun r =>
    ⟨r.date.getD 0, r.close, r.volume, r.dailyReturn, r.symbol⟩)⟩

/-- The terminal log line of a run of `main`: success, or a failure naming
the stage that produced the empty result. -/
inductive Outcome where
  | success
  | extractionFailed
  | transformationFailed
deriving DecidableEq

/-- What one run of `main` did: which artifacts it wrote and which
collaborator calls it made. -/
structure RunEffects where
  savedExtracted : Bool
  savedTransformed : Bool
  loadCalled : Bool
  mergeCalled : Bool
  aggregateCalled : Bool
  savedAggregated : Bool
  outcome : Outcome
deriving DecidableEq

/-- Embedding of `main` from `main2.py` from the extraction result on: a
non-empty extraction is saved and transformed; only when the transformed
frame is non-empty does the driver save it, call `load_data_to_postgres`,
call `move_data_to_edw` and call `aggregate_data` (saving its result when
non-empty); an empty transformation logs "Transformation failed. ETL
process terminated." and nothing further runs.  pandas `.empty` is
row-emptiness here. -/
def mainRun (extracted : RawFrame) : RunEffects :=
  if extracted.rows.isEmpty then
    ⟨false, false, false, false, false, false, .extractionFailed⟩
  else
    let t := transform_data extracted
    if t.rows.isEmpty then
      ⟨true, false, false, false, false, false, .transformationFailed⟩
    else
      let a := (aggregate_data (toAggFrame t)).2
      ⟨true, true, true, true, true, !a.isEmpty, .success⟩

/-- C8.  In every run whose extraction produced rows but whose
transformation stage yielded an empty result, the driver saves no
transformed file, performs no staging load, no warehouse merge and no
aggregation, and terminates in the failed state naming the transformation
stage. -/
theorem driver_stops_on_empty_transform (extracted : RawFrame)
    (hne : extracted.rows ≠ [])
    (hempty : (transform_data extracted).rows = []) :
    (mainRun extracted).savedTransformed = false ∧
    (mainRun extracted).loadCalled = false ∧
    (mainRun extracted).mergeCalled = false ∧
    (mainRun extracted).aggregateCalled = false ∧
    (mainRun extracted).savedAggregated = false ∧
    (mainRun extracted).outcome = .transformationFailed := by
  unfold mainRun
  rw [if_neg (by simp [hne]), if_pos (by simp [hempty])]
  exact ⟨rfl, rfl, rfl, rfl, rfl, rfl⟩

/-- A non-empty extraction lacking the required columns, so the
transformation stage yields the empty frame. -/
def failingExtraction : RawFrame := ⟨["Date"], [schemaRowEx]⟩

/-- Witness for C8 at `failingExtraction`. -/
theorem driver_stops_on_empty_transform_witness :
    (mainRun failingExtraction).savedTransformed = false ∧
    (mainRun failingExtraction).loadCalled = false ∧
    (mainRun failingExtraction).mergeCalled = false ∧
    (mainRun failingExtraction).aggregateCalled = false ∧
    (mainRun failingExtraction).savedAggregated = false ∧
    (mainRun failingExtraction).outcome = .transformationFailed :=
  driver_stops_on_empty_transform failingExtraction (by decide) (by decide)

end StockPipeline
